import Mathlib

/-!
Shallow embedding of the telebonus relay bot's message-processing core
(`src/filters.py`, `src/text_replacer.py`, `src/message_processor.py`,
`src/telegram_client.py`, `src/config.py`) and proofs about it.

Conventions:
* Python `str` is modelled as `List Char` (`Str`); `ord` is `Char.toNat`.
* `unicodedata.category` is an oracle parameter `cat : Char → Str`
  (the code consults only the category string's first character).
* Python dicts keyed by `str(group_id)` are modelled as association lists
  keyed by `Int` (the `str` conversion is injective on ints).
* Derived pattern caches (`_compiled_patterns`, `_compiled_replacements`)
  are modelled in sync with the configuration, as after `_update_patterns`
  / `_update_replacements`; compiled patterns are `\b re.escape(kw) \b`,
  i.e. the literal keyword with word boundaries, which is embedded directly.
-/

abbrev Str := List Char

/-- Characters stripped by Python `str.strip()` (the `str.isspace` set). -/
def pyIsSpace (c : Char) : Bool :=
  let o := c.toNat
  (9 ≤ o && o ≤ 13) || (28 ≤ o && o ≤ 31) || o == 32 || o == 0x85 || o == 0xA0 ||
  o == 0x1680 || (0x2000 ≤ o && o ≤ 0x200A) || o == 0x2028 || o == 0x2029 ||
  o == 0x202F || o == 0x205F || o == 0x3000

/-- Python `str.strip()`: drop whitespace from both ends. -/
def pyStrip (l : Str) : Str :=
  List.rdropWhile pyIsSpace (List.dropWhile pyIsSpace l)

/-- Python `str.split(sep)` for a one-character separator: always returns
one more part than there are separators (so `"".split` gives one empty part). -/
def splitOnChar (sep : Char) : Str → List Str
  | [] => [[]]
  | c :: cs =>
    if c = sep then [] :: splitOnChar sep cs
    else
      match splitOnChar sep cs with
      | [] => [[c]]
      | h :: t => (c :: h) :: t

/-- Python `sep.join(parts)` for a one-character separator. -/
def joinSep (sep : Char) : List Str → Str
  | [] => []
  | [p] => p
  | p :: ps => p ++ sep :: joinSep sep ps

/-- Python substring containment `pat in hay`. -/
def substrOf (pat hay : Str) : Bool :=
  (List.range (hay.length + 1)).any fun i => pat.isPrefixOf (hay.drop i)

/-- ASCII lower-casing, the effect of `str.lower()` / `re.IGNORECASE`
on the characters this development manipulates. -/
def asciiLower (c : Char) : Char :=
  if 'A' ≤ c && c ≤ 'Z' then Char.ofNat (c.toNat + 32) else c

def lowerStr (l : Str) : Str := l.map asciiLower

/-- Python regex `\w` (word character): ASCII letters, digits, underscore,
plus Latin letters; exact on the ASCII texts appearing in this development,
an approximation of the full Unicode table elsewhere (emoji and punctuation
are non-word characters in both). -/
def isWordChar (c : Char) : Bool :=
  let o := c.toNat
  (48 ≤ o && o ≤ 57) || (65 ≤ o && o ≤ 90) || (97 ≤ o && o ≤ 122) || o == 95 ||
  (0xC0 ≤ o && o ≤ 0x24F)

/-- Whether the character at index `i` of `text` is a word character
(out-of-range counts as non-word, like a string edge). -/
def wordAt (text : Str) (i : Nat) : Bool :=
  match text.get? i with
  | some c => isWordChar c
  | none => false

/-- Regex `\b` at gap position `p` (between characters `p-1` and `p`). -/
def boundaryAt (text : Str) (p : Nat) : Bool :=
  (if p = 0 then false else wordAt text (p - 1)) != wordAt text p

/-- The literal keyword occurs at index `i` of `text`
(case-folded when `ignoreCase`). -/
def matchAt (kw text : Str) (ignoreCase : Bool) (i : Nat) : Bool :=
  let seg := (text.drop i).take kw.length
  seg.length == kw.length &&
    (if ignoreCase then lowerStr seg == lowerStr kw else seg == kw)

/-- `re.search(r'\b' + re.escape(kw) + r'\b', text, flags)`:
the escaped keyword is a literal, so this searches for a literal occurrence
of `kw` flanked by word boundaries. -/
def wbSearch (kw text : Str) (ignoreCase : Bool) : Bool :=
  (List.range (text.length + 1)).any fun i =>
    matchAt kw text ignoreCase i && boundaryAt text i && boundaryAt text (i + kw.length)

/-- Python `s.replace(old, new)` on character lists, with fuel
(`s.length + 1` suffices: every recursive call consumes at least one
character of the remaining input). Mirrors Python's empty-pattern
behaviour (`new` interleaved around every character). -/
def pyReplaceAux (old new : Str) : Nat → Str → Str
  | 0, s => s
  | _ + 1, [] => []
  | fuel + 1, c :: cs =>
    if old.isPrefixOf (c :: cs) && old ≠ [] then
      new ++ pyReplaceAux old new fuel ((c :: cs).drop old.length)
    else
      c :: pyReplaceAux old new fuel cs

def pyReplace (s old new : Str) : Str :=
  if old = [] then new ++ s.flatMap fun c => c :: new
  else pyReplaceAux old new (s.length + 1) s

/-! ## Emoji/symbol cleaning transforms

Two distinct cleaners exist in the source: `TextReplacer._remove_emojis`
(text_replacer.py:47-72, line-by-line, per-line strip, five emoji ranges)
and the identical `MessageFilter._remove_emojis` /
`MessageProcessor._remove_emojis` (filters.py:253-268,
message_processor.py:122-137: whole-text character filter, one final strip,
four emoji ranges). Both consult `unicodedata.category(char)[0]`. -/

/-- First character of the `unicodedata.category` string, as the
one-character string Python's `category(char)[0]` produces. -/
def catFirst (cat : Char → Str) (c : Char) : Str := (cat c).take 1

/-- text_replacer.py:60: `unicodedata.category(char)[0] not in ('So', 'Sk')`
compares the one-character first letter of the category against the
two-character codes, so the membership test never succeeds (proved below
for every oracle); embedded as written. -/
def catFirstInSoSk (cat : Char → Str) (c : Char) : Bool :=
  catFirst cat c == "So".data || catFirst cat c == "Sk".data

/-- The five emoji codepoint ranges skipped by `TextReplacer._remove_emojis`. -/
def isEmojiRangeTR (c : Char) : Bool :=
  let o := c.toNat
  (0x1F600 ≤ o && o ≤ 0x1F64F) || (0x1F300 ≤ o && o ≤ 0x1F5FF) ||
  (0x1F680 ≤ o && o ≤ 0x1F6FF) || (0x2600 ≤ o && o ≤ 0x26FF) ||
  (0x2700 ≤ o && o ≤ 0x27BF)

/-- Per-character keep condition of `TextReplacer._remove_emojis`. -/
def keepCharTR (cat : Char → Str) (c : Char) : Bool :=
  (32 ≤ c.toNat && c.toNat ≤ 126) || c == ' ' || c == '\t' ||
  (!catFirstInSoSk cat c && !isEmojiRangeTR c)

/-- One line of `TextReplacer._remove_emojis`: filter characters, then
`cleaned_line.strip()`. -/
def cleanLineTR (cat : Char → Str) (line : Str) : Str :=
  pyStrip (line.filter (keepCharTR cat))

/-- `TextReplacer._remove_emojis` (text_replacer.py:47-72): split on
newlines, clean and strip each line, rejoin. -/
def removeEmojisTR (cat : Char → Str) (text : Str) : Str :=
  joinSep '\n' ((splitOnChar '\n' text).map (cleanLineTR cat))

/-- The four emoji codepoint ranges skipped by the filters/message-processor
cleaner (no Dingbats range, unlike the TextReplacer one). -/
def isEmojiRangeF (c : Char) : Bool :=
  let o := c.toNat
  (0x1F600 ≤ o && o ≤ 0x1F64F) || (0x1F300 ≤ o && o ≤ 0x1F5FF) ||
  (0x1F680 ≤ o && o ≤ 0x1F6FF) || (0x2600 ≤ o && o ≤ 0x26FF)

/-- Per-character keep condition of `MessageFilter._remove_emojis` /
`MessageProcessor._remove_emojis`: keep `\n\r\t ` and printable ASCII;
otherwise keep when the category's first letter is neither `S` nor `C`
and the character is outside the four emoji ranges. -/
def keepCharF (cat : Char → Str) (c : Char) : Bool :=
  c == '\n' || c == '\r' || c == '\t' || c == ' ' ||
  (32 ≤ c.toNat && c.toNat ≤ 126) ||
  (catFirst cat c != "S".data && catFirst cat c != "C".data && !isEmojiRangeF c)

/-- `MessageFilter._remove_emojis` (filters.py:253-268), identical to
`MessageProcessor._remove_emojis`: filter all characters, then strip the
whole result once. -/
def removeEmojisF (cat : Char → Str) (text : Str) : Str :=
  pyStrip (text.filter (keepCharF cat))

/-! ## Configuration and message model (config.py) -/

/-- One `filters.group_specific` entry: `{enabled, keywords}` with Python
defaults `enabled=False`, `keywords=[]` applied at the boundary. -/
structure GroupFilterCfg where
  enabled : Bool
  keywords : List Str
deriving Repr

/-- The configuration fields the processing pipeline reads (config.py
properties). Group-keyed dicts use `Int` keys for the `str(group_id)`
keys of the JSON document. -/
structure Config where
  filters_enabled : Bool
  case_sensitive : Bool
  keywords : List Str
  group_specific : List (Int × GroupFilterCfg)
  text_replacements : List (Str × Str)
  group_specific_replacements : List (Int × List (Str × Str))
  enable_text_processing : Bool
  target_groups : List Int
  max_retries : Nat
deriving Repr

def lookupGroupFilters (cfg : Config) (gid : Int) : Option GroupFilterCfg :=
  (cfg.group_specific.find? fun p => p.1 == gid).map (·.2)

def lookupGroupRepl (cfg : Config) (gid : Int) : Option (List (Str × Str)) :=
  (cfg.group_specific_replacements.find? fun p => p.1 == gid).map (·.2)

/-- A platform message as the processor probes it: optional text body,
optional caption, media flag (Python truthiness: `None` and the empty
string are both falsy, modelled by `Option` plus emptiness tests). -/
structure PyMessage where
  text : Option Str
  caption : Option Str
  media : Bool
deriving Repr

/-! ## MessageFilter (filters.py) -/

/-- `MessageFilter._check_keywords_in_text` (filters.py:106-137): empty
keyword list or empty text blocks; keywords containing a space match by
substring containment (lower-cased on both sides unless case-sensitive),
other keywords by word-boundary regex search; first match passes. -/
def check_keywords_in_text (caseSensitive : Bool) (text : Str) (kws : List Str) : Bool :=
  if kws.isEmpty || text.isEmpty then false
  else
    kws.any fun kw =>
      if kw.contains ' ' then
        if caseSensitive then substrOf kw text
        else substrOf (lowerStr kw) (lowerStr text)
      else wbSearch kw text (!caseSensitive)

/-- The global branch of `MessageFilter.passes_keyword_filter`
(filters.py:76-104): disabled or keyword-less filtering passes, empty text
blocks, otherwise the compiled `\b keyword \b` patterns are searched
against the RAW text (no emoji cleaning on this path). -/
def globalFilterCheck (cfg : Config) (text : Str) : Bool :=
  if !cfg.filters_enabled then true
  else if cfg.keywords.isEmpty then true
  else if text.isEmpty then false
  else cfg.keywords.any fun kw => wbSearch kw text (!cfg.case_sensitive)

/-- The group-specific entry `passes_keyword_filter` consults for a source
group (filters.py:58-59): `if source_group_id and ...` makes group id `0`
(Python-falsy) skip the lookup entirely. -/
def groupOverrideFor (cfg : Config) (gid : Int) : Option GroupFilterCfg :=
  if gid ≠ 0 then lookupGroupFilters cfg gid else none

/-- `MessageFilter.passes_keyword_filter` (filters.py:44-104).
An applicable enabled group entry with keywords matches against the
emoji-cleaned text; with an empty keyword list it blocks unconditionally;
otherwise the global branch runs. -/
def passes_keyword_filter (cat : Char → Str) (cfg : Config) (text : Str) (gid : Int) : Bool :=
  match groupOverrideFor cfg gid with
  | some gf =>
    if gf.enabled then
      if gf.keywords.isEmpty then false
      else check_keywords_in_text cfg.case_sensitive (removeEmojisF cat text) gf.keywords
    else globalFilterCheck cfg text
  | none => globalFilterCheck cfg text

/-! ## TextReplacer (text_replacer.py) -/

/-- Inner line scan of `TextReplacer.replace_text` (text_replacer.py:118-125):
replace the cleaned pattern inside the first line containing it (all
occurrences within that line), leave the other lines; `none` when no line
contains the pattern. -/
def replaceFirstLine (cp new : Str) : List Str → Option (List Str)
  | [] => none
  | l :: ls =>
    if substrOf cp l then some (pyReplace l cp new :: ls)
    else (replaceFirstLine cp new ls).map (l :: ·)

/-- Rule loop of `TextReplacer.replace_text` (text_replacer.py:112-128):
rules in insertion order; stop after the first rule that replaced a line. -/
def applyFirstRule (cat : Char → Str) : List (Str × Str) → List Str → List Str
  | [], lines => lines
  | (old, new) :: rest, lines =>
    match replaceFirstLine (removeEmojisTR cat old) new lines with
    | some ls => ls
    | none => applyFirstRule cat rest lines

/-- `TextReplacer.replace_text` (text_replacer.py:74-137): empty text or
disabled processing returns the input; otherwise the emoji-cleaned text is
split into lines, the first matching rule's cleaned pattern is replaced in
the first matching line, and the (cleaned) lines are rejoined — also when
no rule matched. -/
def replace_text (cat : Char → Str) (cfg : Config) (text : Str) : Str :=
  if text.isEmpty then text
  else if !cfg.enable_text_processing then text
  else
    joinSep '\n'
      (applyFirstRule cat cfg.text_replacements
        (splitOnChar '\n' (removeEmojisTR cat text)))

/-! ## MessageProcessor (message_processor.py) -/

/-- Shared loop body of `_apply_text_replacements_preserve_emojis`
(message_processor.py:79-100, both branches have the same logic): first
rule whose cleaned old-pattern is contained in the cleaned text replaces
all its occurrences in the cleaned text; with no match the ORIGINAL text is
returned. Cleaning is the filters/message-processor cleaner. -/
def firstCleanReplace (cat : Char → Str) (rules : List (Str × Str)) (text : Str) : Str :=
  match rules.find? fun r => substrOf (removeEmojisF cat r.1) (removeEmojisF cat text) with
  | some (old, new) => pyReplace (removeEmojisF cat text) (removeEmojisF cat old) new
  | none => text

/-- `MessageProcessor._apply_text_replacements_preserve_emojis`
(message_processor.py:73-100): a non-empty group-specific replacement dict
overrides the global rules (an absent or empty entry falls back). -/
def apply_text_replacements_preserve_emojis (cat : Char → Str) (cfg : Config)
    (text : Str) (gid : Int) : Str :=
  match lookupGroupRepl cfg gid with
  | some rs =>
    if rs.isEmpty then firstCleanReplace cat cfg.text_replacements text
    else firstCleanReplace cat rs text
  | none => firstCleanReplace cat cfg.text_replacements text

/-- `MessageProcessor._extract_message_text` (message_processor.py:139-153):
collect the truthy text body, then the truthy caption when media is
present, space-join and strip. -/
def extract_message_text (msg : PyMessage) : Str :=
  let parts :=
    (match msg.text with
     | some t => if t.isEmpty then [] else [t]
     | none => []) ++
    (if msg.media then
       match msg.caption with
       | some cp => if cp.isEmpty then [] else [cp]
       | none => []
     else [])
  pyStrip (joinSep ' ' parts)

/-- `MessageProcessor.process_message` (message_processor.py:27-60), the
non-raising data path: empty extracted text drops the message; no filter is
consulted ("Since filters are disabled, all messages pass through"); text
processing applies the emoji-preserving replacement, else the extracted
text is returned as is. -/
def process_message (cat : Char → Str) (cfg : Config) (msg : PyMessage) (gid : Int) :
    Option Str :=
  let t := extract_message_text msg
  if t.isEmpty then none
  else if cfg.enable_text_processing then
    some (apply_text_replacements_preserve_emojis cat cfg t gid)
  else some t

/-- Exception payloads of the Python runtime (opaque). -/
abbrev PyExc := String

/-- The try-block body of `MessageProcessor.process_message`
(message_processor.py:38-55) with the two fallible sub-steps (text
extraction, replacement application) abstracted as oracles that may raise. -/
def process_message_body (extractO : PyMessage → Except PyExc Str)
    (replO : Str → Int → Except PyExc Str) (cfg : Config) (msg : PyMessage)
    (gid : Int) : Except PyExc (Option Str) := do
  let t ← extractO msg
  if t.isEmpty then return none
  else if cfg.enable_text_processing then
    let r ← replO t gid
    return some r
  else return some t

/-- `MessageProcessor.process_message` with its `try/except Exception`
wrapper (message_processor.py:38-60): any exception from the body is caught
and turned into `None`. -/
def process_message_sem (extractO : PyMessage → Except PyExc Str)
    (replO : Str → Int → Except PyExc Str) (cfg : Config) (msg : PyMessage)
    (gid : Int) : Except PyExc (Option Str) :=
  match process_message_body extractO replO cfg msg gid with
  | .ok v => .ok v
  | .error _ => .ok none

/-! ## Dedup set (telegram_client.py:94-104)

The Python `set` is modelled as a duplicate-free list in iteration order:
`list(set)[:500]` discards the first 500 listed entries, `set.add` appends. -/

/-- One ingestion step of `TelegramRelayClient.handle_new_message` on the
dedup set: an already-seen id leaves the set unchanged; otherwise, when the
size exceeds 1000, the first 500 listed entries are discarded before the
new id is inserted. -/
def dedupStep (s : List Nat) (mid : Nat) : List Nat :=
  if mid ∈ s then s
  else (if s.length > 1000 then s.drop 500 else s) ++ [mid]

/-! ## Replacement-mapping mutation (config.py:162-165, text_replacer.py:147-191)

Python dicts are modelled as insertion-ordered association lists with
unique keys. -/

/-- `Config.add_text_replacement` / `TextReplacer.add_replacement`:
`dict[k] = v` — overwrite in place when the key exists, else append. -/
def add_text_replacement (m : List (Str × Str)) (k v : Str) : List (Str × Str) :=
  if m.any fun p => p.1 == k then
    m.map fun p => if p.1 == k then (k, v) else p
  else m ++ [(k, v)]

/-- `TextReplacer.remove_replacement` (text_replacer.py:168-191): delete the
key when present, otherwise leave the mapping unchanged. -/
def remove_replacement (m : List (Str × Str)) (k : Str) : List (Str × Str) :=
  if m.any fun p => p.1 == k then m.filter fun p => p.1 != k else m

/-! ## Forwarding retry loop (telegram_client.py:133-187) -/

/-- Outcome of one send attempt to a target. -/
inductive SendOutcome where
  | success
  | rateLimit (secs : Nat)
  | failed
deriving Repr, DecidableEq

/-- Observable events of `TelegramRelayClient._forward_message`. -/
inductive FwdEvent where
  | attempt (t : Int)
  | sent (t : Int)
  | rateSleep (secs : Nat)
  | backoffSleep (secs : Nat)
deriving Repr, DecidableEq

/-- The per-target `while retries < max_retries` loop
(telegram_client.py:136-187), driven by a behaviour oracle
`beh target retries`: success breaks; a rate limit sleeps the
server-specified duration and increments `retries`; any other failure
increments `retries` and sleeps `2 ** retries` when budget remains.
`fuel` is `maxR - retries`, so `fuel = 0` is exactly the loop guard
`retries < max_retries` failing. -/
def perTargetAux (beh : Int → Nat → SendOutcome) (t : Int) (maxR : Nat) :
    Nat → Nat → List FwdEvent
  | 0, _ => []
  | fuel + 1, r =>
    match beh t r with
    | .success => [.attempt t, .sent t]
    | .rateLimit s => .attempt t :: .rateSleep s :: perTargetAux beh t maxR fuel (r + 1)
    | .failed =>
      .attempt t ::
        ((if r + 1 < maxR then [FwdEvent.backoffSleep (2 ^ (r + 1))] else []) ++
          perTargetAux beh t maxR fuel (r + 1))

/-- Event trace of the retry loop for one target. -/
def perTargetTrace (beh : Int → Nat → SendOutcome) (maxR : Nat) (t : Int) :
    List FwdEvent :=
  perTargetAux beh t maxR maxR 0

/-- `TelegramRelayClient._forward_message`: run the retry loop for every
configured target in order, whatever happened on earlier targets. -/
def forwardMessageTrace (beh : Int → Nat → SendOutcome) (targets : List Int)
    (maxR : Nat) : List FwdEvent :=
  targets.flatMap (perTargetTrace beh maxR)

def attemptTargetOf : FwdEvent → Option Int
  | .attempt t => some t
  | _ => none

def isSentEv : FwdEvent → Bool
  | .sent _ => true
  | _ => false

def isBackoffEv : FwdEvent → Bool
  | .backoffSleep _ => true
  | _ => false

/-- Number of send attempts the loop makes for target `t`. -/
def attemptCount (beh : Int → Nat → SendOutcome) (maxR : Nat) (t : Int) : Nat :=
  ((perTargetTrace beh maxR t).filterMap attemptTargetOf).length

/-! ## Concrete fixtures for witnesses and counterexamples -/

/-- A `unicodedata.category` oracle agreeing with the real Unicode data at
every character consulted in the concrete inputs below (`🙂` U+1F642 has
category `So`; the ASCII characters used are never routed through the
category branch of either cleaner). -/
def catSo : Char → Str :=
  fun c => if 0x2000 ≤ c.toNat then "So".data else "Ll".data

/-- A baseline configuration for concrete evaluations. -/
def cfgBase : Config where
  filters_enabled := true
  case_sensitive := false
  keywords := []
  group_specific := []
  text_replacements := []
  group_specific_replacements := []
  enable_text_processing := true
  target_groups := []
  max_retries := 3

def cfgKwHi : Config := { cfgBase with keywords := ["hi".data] }

def cfgKwRain : Config := { cfgBase with keywords := ["Rain in India".data] }

/-- A group-specific filter entry with `enabled=true` and an empty keyword
list (the "block everything" override of §4.1). -/
def gfEmptyKws : GroupFilterCfg where
  enabled := true
  keywords := []

/-- Global filtering disabled, and source group `0` carries the enabled
empty-keyword override. -/
def cfgGroupZero : Config :=
  { cfgBase with filters_enabled := false, group_specific := [(0, gfEmptyKws)] }

/-- A text-only message reading `hello`. -/
def msgHello : PyMessage where
  text := some "hello".data
  caption := none
  media := false

/-- Send behaviour failing (non-rate-limit) on the first two attempts of
every target and succeeding from the third on. -/
def behTwoFails : Int → Nat → SendOutcome :=
  fun _ r => if r ≤ 1 then .failed else .success

/-- An extraction oracle that always raises. -/
def extractBoom : PyMessage → Except PyExc Str := fun _ => .error "boom"

/-- A replacement oracle that never raises. -/
def replOk : Str → Int → Except PyExc Str := fun t _ => .ok t

/-- Global filtering disabled, and source group `5` carries the enabled
empty-keyword override. -/
def cfgGroupFive : Config :=
  { cfgBase with filters_enabled := false, group_specific := [(5, gfEmptyKws)] }

/-- A group-specific filter entry with the single keyword `hi`. -/
def gfKwHi : GroupFilterCfg where
  enabled := true
  keywords := ["hi".data]

/-- Source group `5` carries an enabled group-specific filter with
keyword `hi`. -/
def cfgGroupKwHi : Config := { cfgBase with group_specific := [(5, gfKwHi)] }

/-! ## Helper lemmas: Python `strip`, split/join, cleaners -/

theorem dropWhile_head_false {p : Char → Bool} {m : Str} (h : m.dropWhile p = m) :
    ∀ b bs, m = b :: bs → p b = false := by
  intro b bs hm
  subst hm
  cases hpb : p b with
  | false => rfl
  | true =>
    rw [List.dropWhile_cons_of_pos hpb] at h
    have hlen : (List.dropWhile p bs).length ≤ bs.length :=
      (List.dropWhile_sublist _).length_le
    have := congrArg List.length h
    simp at this
    omega

theorem dropWhile_rdropWhile_self {p : Char → Bool} {m : Str}
    (h : m.dropWhile p = m) : (m.rdropWhile p).dropWhile p = m.rdropWhile p := by
  rcases hm : m.rdropWhile p with _ | ⟨b, bs⟩
  · simp
  · have hpre := List.rdropWhile_prefix p m
    rw [hm] at hpre
    obtain ⟨r, hr⟩ := hpre
    have hmb : m = b :: (bs ++ r) := by rw [← hr]; rfl
    have hb : p b = false := dropWhile_head_false h b (bs ++ r) hmb
    simp [List.dropWhile_cons, hb]

theorem pyStrip_idem (l : Str) : pyStrip (pyStrip l) = pyStrip l := by
  unfold pyStrip
  rw [dropWhile_rdropWhile_self (List.dropWhile_idempotent pyIsSpace l),
    List.rdropWhile_idempotent]

theorem mem_pyStrip {x : Char} {l : Str} (h : x ∈ pyStrip l) : x ∈ l := by
  unfold pyStrip at h
  exact (List.dropWhile_sublist _).subset
    (( List.rdropWhile_prefix _ _).sublist.subset h)

theorem splitOnChar_ne_nil (sep : Char) (l : Str) : splitOnChar sep l ≠ [] := by
  induction l with
  | nil => simp [splitOnChar]
  | cons c cs ih =>
    by_cases hc : c = sep
    · simp [splitOnChar, hc]
    · simp only [splitOnChar, if_neg hc]
      rcases splitOnChar sep cs with _ | ⟨h1, t⟩ <;> simp

theorem not_mem_of_mem_splitOnChar {sep : Char} {l : Str} :
    ∀ p ∈ splitOnChar sep l, sep ∉ p := by
  induction l with
  | nil =>
    intro p hp
    simp [splitOnChar] at hp
    simp [hp]
  | cons c cs ih =>
    intro p hp
    by_cases hc : c = sep
    · simp only [splitOnChar, if_pos hc] at hp
      rcases List.mem_cons.mp hp with hp | hp
      · simp [hp]
      · exact ih p hp
    · simp only [splitOnChar, if_neg hc] at hp
      rcases hq : splitOnChar sep cs with _ | ⟨h1, t⟩
      · exact absurd hq (splitOnChar_ne_nil sep cs)
      · rw [hq] at hp
        rcases List.mem_cons.mp hp with hp | hp
        · subst hp
          intro hmem
          rcases List.mem_cons.mp hmem with hmem | hmem
          · exact hc hmem.symm
          · exact ih h1 (hq ▸ List.mem_cons_self h1 t) hmem
        · exact ih p (hq ▸ List.mem_cons_of_mem h1 hp)

theorem splitOnChar_of_not_mem {sep : Char} {p : Str} (h : sep ∉ p) :
    splitOnChar sep p = [p] := by
  induction p with
  | nil => rfl
  | cons c cs ih =>
    have hc : ¬ c = sep := fun he => h (he ▸ List.mem_cons_self c cs)
    have hcs : sep ∉ cs := fun hm => h (List.mem_cons_of_mem c hm)
    simp only [splitOnChar, if_neg hc, ih hcs]

theorem splitOnChar_append_sep {sep : Char} {p : Str} (h : sep ∉ p) (r : Str) :
    splitOnChar sep (p ++ sep :: r) = p :: splitOnChar sep r := by
  induction p with
  | nil => simp [splitOnChar]
  | cons c cs ih =>
    have hc : ¬ c = sep := fun he => h (he ▸ List.mem_cons_self c cs)
    have hcs : sep ∉ cs := fun hm => h (List.mem_cons_of_mem c hm)
    have hrec := ih hcs
    simp only [List.cons_append, splitOnChar, if_neg hc, List.append_eq]
    rw [hrec]

theorem joinSep_splitOnChar (sep : Char) (l : Str) :
    joinSep sep (splitOnChar sep l) = l := by
  induction l with
  | nil => rfl
  | cons c cs ih =>
    by_cases hc : c = sep
    · subst hc
      simp only [splitOnChar, if_pos rfl]
      rcases hq : splitOnChar c cs with _ | ⟨h1, t⟩
      · exact absurd hq (splitOnChar_ne_nil c cs)
      · rw [hq] at ih
        simpa [joinSep] using ih
    · simp only [splitOnChar, if_neg hc]
      rcases hq : splitOnChar sep cs with _ | ⟨h1, t⟩
      · exact absurd hq (splitOnChar_ne_nil sep cs)
      · rw [hq] at ih
        cases t with
        | nil => simpa [joinSep] using ih
        | cons t1 t2 => simpa [joinSep] using ih

theorem splitOnChar_joinSep {sep : Char} :
    ∀ {ps : List Str}, ps ≠ [] → (∀ p ∈ ps, sep ∉ p) →
      splitOnChar sep (joinSep sep ps) = ps := by
  intro ps
  induction ps with
  | nil => intro h; exact absurd rfl h
  | cons p ps ih =>
    intro _ hsep
    cases ps with
    | nil =>
      simp only [joinSep]
      exact splitOnChar_of_not_mem (hsep p (List.mem_cons_self p []))
    | cons q qs =>
      have hjoin : joinSep sep (p :: q :: qs) = p ++ sep :: joinSep sep (q :: qs) := rfl
      rw [hjoin, splitOnChar_append_sep (hsep p (List.mem_cons_self p _)),
        ih (by simp) (fun x hx => hsep x (List.mem_cons_of_mem p hx))]

theorem mem_cleanLineTR {cat : Char → Str} {x : Char} {l : Str}
    (h : x ∈ cleanLineTR cat l) : x ∈ l :=
  List.mem_of_mem_filter (mem_pyStrip h)

theorem cleanLineTR_idem (cat : Char → Str) (l : Str) :
    cleanLineTR cat (cleanLineTR cat l) = cleanLineTR cat l := by
  unfold cleanLineTR
  have hfe : (pyStrip (l.filter (keepCharTR cat))).filter (keepCharTR cat) =
      pyStrip (l.filter (keepCharTR cat)) :=
    List.filter_eq_self.mpr fun a ha => List.of_mem_filter (mem_pyStrip ha)
  rw [hfe, pyStrip_idem]

theorem not_mem_sep_cleanLineTR {cat : Char → Str} {l : Str} (h : '\n' ∉ l) :
    '\n' ∉ cleanLineTR cat l :=
  fun hm => h (mem_cleanLineTR hm)

theorem splitOnChar_removeEmojisTR (cat : Char → Str) (t : Str) :
    splitOnChar '\n' (removeEmojisTR cat t) =
      (splitOnChar '\n' t).map (cleanLineTR cat) := by
  unfold removeEmojisTR
  refine splitOnChar_joinSep ?_ ?_
  · simp [splitOnChar_ne_nil '\n' t]
  · intro p hp
    obtain ⟨q, hq, hpq⟩ := List.mem_map.mp hp
    exact hpq ▸ not_mem_sep_cleanLineTR (not_mem_of_mem_splitOnChar q hq)

theorem removeEmojisTR_idem (cat : Char → Str) (t : Str) :
    removeEmojisTR cat (removeEmojisTR cat t) = removeEmojisTR cat t := by
  conv_lhs => rw [removeEmojisTR, splitOnChar_removeEmojisTR, List.map_map]
  rw [removeEmojisTR]
  congr 1
  exact List.map_congr_left fun q _ => cleanLineTR_idem cat q

theorem removeEmojisTR_nil (cat : Char → Str) : removeEmojisTR cat [] = [] := rfl

theorem removeEmojisF_idem (cat : Char → Str) (t : Str) :
    removeEmojisF cat (removeEmojisF cat t) = removeEmojisF cat t := by
  unfold removeEmojisF
  have hfe : (pyStrip (t.filter (keepCharF cat))).filter (keepCharF cat) =
      pyStrip (t.filter (keepCharF cat)) :=
    List.filter_eq_self.mpr fun a ha => List.of_mem_filter (mem_pyStrip ha)
  rw [hfe, pyStrip_idem]

theorem replaceFirstLine_eq_none {cp new : Str} {lines : List Str}
    (h : ∀ line ∈ lines, substrOf cp line = false) :
    replaceFirstLine cp new lines = none := by
  induction lines with
  | nil => rfl
  | cons l ls ih =>
    have hl := h l (List.mem_cons_self l ls)
    simp only [replaceFirstLine, hl]
    rw [ih fun x hx => h x (List.mem_cons_of_mem l hx)]
    simp

theorem applyFirstRule_no_match {cat : Char → Str} {rules : List (Str × Str)}
    {lines : List Str}
    (h : ∀ r ∈ rules, ∀ line ∈ lines, substrOf (removeEmojisTR cat r.1) line = false) :
    applyFirstRule cat rules lines = lines := by
  induction rules with
  | nil => rfl
  | cons r rs ih =>
    obtain ⟨old, new⟩ := r
    simp only [applyFirstRule]
    rw [replaceFirstLine_eq_none (h (old, new) (List.mem_cons_self _ _))]
    exact ih fun x hx => h x (List.mem_cons_of_mem _ hx)

/-! ## Claims -/

/-- C1: in the reference message-processing path, every message whose
extracted text (body plus media caption, space-joined and trimmed) is
non-empty produces a text result from `process_message` for every keyword
filter configuration: the path never consults the keyword filter, so
filtering never blocks a text-bearing message there. -/
theorem C1_text_bearing_never_blocked (cat : Char → Str) (cfg : Config)
    (msg : PyMessage) (gid : Int) (h : extract_message_text msg ≠ []) :
    (process_message cat cfg msg gid).isSome = true := by
  have hne : (extract_message_text msg).isEmpty = false := by
    simpa [List.isEmpty_iff] using h
  unfold process_message
  simp only [hne]
  cases cfg.enable_text_processing <;> simp

/-- C1 witness: the plain-text message `hello` is processed to a result
under the baseline configuration. -/
theorem C1_witness :
    extract_message_text msgHello ≠ [] ∧
      (process_message catSo cfgBase msgHello 5).isSome = true :=
  ⟨by decide, C1_text_bearing_never_blocked catSo cfgBase msgHello 5 (by decide)⟩

/-- C4 counterexample: source group `0` has a group-specific entry with
`enabled=true` and an empty keyword list, yet `passes_keyword_filter`
returns `true` on text `x` (with global filtering disabled), because
`if source_group_id and ...` is false for the Python-falsy id `0` and the
group-specific branch is skipped. -/
theorem C4_counterexample :
    lookupGroupFilters cfgGroupZero 0 = some gfEmptyKws ∧
      gfEmptyKws.enabled = true ∧ gfEmptyKws.keywords = [] ∧
      passes_keyword_filter catSo cfgGroupZero "x".data 0 = true :=
  ⟨rfl, rfl, rfl, rfl⟩

/-- C4 amended: for every source group with NON-ZERO id whose
group-specific entry has `enabled=true` and an empty keyword list,
`passes_keyword_filter` returns `false` for every text, regardless of the
global filter configuration. -/
theorem C4_empty_group_keywords_block (cat : Char → Str) (cfg : Config)
    (text : Str) (gid : Int) (gf : GroupFilterCfg) (h0 : gid ≠ 0)
    (hl : lookupGroupFilters cfg gid = some gf) (he : gf.enabled = true)
    (hk : gf.keywords = []) :
    passes_keyword_filter cat cfg text gid = false := by
  unfold passes_keyword_filter groupOverrideFor
  rw [if_pos h0, hl]
  simp [he, hk]

/-- C4 witness: group `5` with the enabled empty-keyword override blocks
the text `x` even though global filtering is disabled. -/
theorem C4_witness : passes_keyword_filter catSo cfgGroupFive "x".data 5 = false :=
  C4_empty_group_keywords_block catSo cfgGroupFive "x".data 5 gfEmptyKws
    (by decide) rfl rfl rfl

/-- C5 counterexample: under pure global filtering, the multi-word keyword
`Rain in India` is contained (case-insensitively) as a substring of
`xRain in Indiax`, but the filter blocks the message: global keywords are
matched by the compiled word-boundary patterns, not by substring
containment. -/
theorem C5_counterexample :
    passes_keyword_filter catSo cfgKwRain "xRain in Indiax".data 7 = false ∧
      substrOf (lowerStr "Rain in India".data) (lowerStr "xRain in Indiax".data) = true :=
  ⟨rfl, rfl⟩

/-- C5 amended: under global filtering (no applicable group-specific
entry, filtering enabled, non-empty keywords, non-empty text), EVERY
global keyword — multi-word or single-word — is matched by the
word-boundary regex search on the raw text; the filter passes exactly when
some keyword matches. -/
theorem C5_global_keywords_word_boundary (cat : Char → Str) (cfg : Config)
    (text : Str) (gid : Int)
    (hg : ∀ gf, groupOverrideFor cfg gid = some gf → gf.enabled = false)
    (he : cfg.filters_enabled = true) (hk : cfg.keywords ≠ [])
    (ht : text ≠ []) :
    (passes_keyword_filter cat cfg text gid = true ↔
      ∃ kw ∈ cfg.keywords, wbSearch kw text (!cfg.case_sensitive) = true) := by
  have hk2 : cfg.keywords.isEmpty = false := by simpa [List.isEmpty_iff] using hk
  have ht2 : text.isEmpty = false := by simpa [List.isEmpty_iff] using ht
  have hglobal : globalFilterCheck cfg text =
      cfg.keywords.any fun kw => wbSearch kw text (!cfg.case_sensitive) := by
    unfold globalFilterCheck
    rw [he, hk2, ht2]
    simp
  unfold passes_keyword_filter
  rcases hov : groupOverrideFor cfg gid with _ | gf
  · rw [hglobal, List.any_eq_true]
  · simp only [hg gf hov, Bool.false_eq_true, if_false, hglobal, List.any_eq_true]

/-- C5 witness: the single keyword `Rain in India` passes the text
`Heavy Rain in India today` under global filtering (the containment here
is on word boundaries, so the word-boundary search finds it). -/
theorem C5_witness :
    passes_keyword_filter catSo cfgKwRain "Heavy Rain in India today".data 7 = true := by
  rw [C5_global_keywords_word_boundary catSo cfgKwRain
    "Heavy Rain in India today".data 7 (by intro gf h; cases h) rfl
    (by decide) (by decide)]
  exact ⟨"Rain in India".data, by decide, by decide⟩

/-- C2 counterexample: the emoji `🙂` interrupting the global keyword `hi`
in `h🙂i` blocks the message under global filtering — the cleaned text
would match the keyword, but the global branch of
`passes_keyword_filter` searches the RAW text, not the cleaned one. -/
theorem C2_counterexample :
    passes_keyword_filter catSo cfgKwHi "h🙂i".data 5 = false ∧
      wbSearch "hi".data (removeEmojisF catSo "h🙂i".data) true = true :=
  ⟨rfl, rfl⟩

/-- C2 amended: pattern matching happens against the emoji-cleaned text
for GROUP-SPECIFIC keyword filtering and for text replacement — both are
invariant under pre-cleaning the input — but GLOBAL keyword filtering
matches the raw text, so decorative emoji interrupting a keyword can block
a global match. -/
theorem C2_cleaned_matching_scope :
    (∀ (cat : Char → Str) (cfg : Config) (text : Str) (gid : Int)
        (gf : GroupFilterCfg), groupOverrideFor cfg gid = some gf →
        gf.enabled = true → gf.keywords ≠ [] →
        passes_keyword_filter cat cfg (removeEmojisF cat text) gid =
          passes_keyword_filter cat cfg text gid) ∧
    (∀ (cat : Char → Str) (cfg : Config) (text : Str),
        cfg.enable_text_processing = true → removeEmojisTR cat text ≠ [] →
        replace_text cat cfg (removeEmojisTR cat text) = replace_text cat cfg text) := by
  constructor
  · intro cat cfg text gid gf hov he hk
    have hk2 : gf.keywords.isEmpty = false := by simpa [List.isEmpty_iff] using hk
    unfold passes_keyword_filter
    rw [hov]
    simp only [he, if_true, hk2, Bool.false_eq_true, if_false, removeEmojisF_idem]
  · intro cat cfg text hen hne
    have htext : text ≠ [] := by
      intro h
      rw [h, removeEmojisTR_nil] at hne
      exact hne rfl
    have h1 : (removeEmojisTR cat text).isEmpty = false := by
      simpa [List.isEmpty_iff] using hne
    have h2 : text.isEmpty = false := by simpa [List.isEmpty_iff] using htext
    unfold replace_text
    simp only [h1, h2, hen, Bool.not_true, Bool.false_eq_true, if_false,
      removeEmojisTR_idem]

/-- C2 witness: group-specific filtering of `h🙂i` against keyword `hi`
gives the same verdict on the raw and the pre-cleaned text, and the global
replacement pipeline gives the same output on the raw and the pre-cleaned
text. -/
theorem C2_witness :
    passes_keyword_filter catSo cfgGroupKwHi
        (removeEmojisF catSo "h🙂i".data) 5 =
      passes_keyword_filter catSo cfgGroupKwHi "h🙂i".data 5 ∧
    replace_text catSo cfgBase (removeEmojisTR catSo "hi 🙂".data) =
      replace_text catSo cfgBase "hi 🙂".data :=
  ⟨C2_cleaned_matching_scope.1 catSo cfgGroupKwHi "h🙂i".data 5 gfKwHi rfl rfl
      (by decide),
    C2_cleaned_matching_scope.2 catSo cfgBase "hi 🙂".data rfl (by decide)⟩

/-- C3 counterexample: with no replacement rules at all (so no rule
matches anything), `TextReplacer.replace_text` applied to `hi 🙂` returns
the CLEANED text `hi`, not the original input with its emoji preserved. -/
theorem C3_counterexample :
    cfgBase.text_replacements = [] ∧
      replace_text catSo cfgBase "hi 🙂".data = "hi".data ∧
      ("hi".data : Str) ≠ "hi 🙂".data :=
  ⟨rfl, rfl, by decide⟩

/-- C3 amended: when no rule's cleaned old-pattern is contained in the
cleaned input, `TextReplacer.replace_text` returns the CLEANED text
(emoji stripped), while the live `MessageProcessor` global path
(`_apply_text_replacements_preserve_emojis`) returns the original input
text with its decorative symbols and emoji preserved. -/
theorem C3_no_match_results :
    (∀ (cat : Char → Str) (cfg : Config) (text : Str),
        cfg.enable_text_processing = true →
        (∀ r ∈ cfg.text_replacements,
          ∀ line ∈ splitOnChar '\n' (removeEmojisTR cat text),
            substrOf (removeEmojisTR cat r.1) line = false) →
        replace_text cat cfg text = removeEmojisTR cat text) ∧
    (∀ (cat : Char → Str) (cfg : Config) (text : Str) (gid : Int),
        (lookupGroupRepl cfg gid = none ∨ lookupGroupRepl cfg gid = some []) →
        (∀ r ∈ cfg.text_replacements,
            substrOf (removeEmojisF cat r.1) (removeEmojisF cat text) = false) →
        apply_text_replacements_preserve_emojis cat cfg text gid = text) := by
  constructor
  · intro cat cfg text hen h
    by_cases htext : text = []
    · rw [htext, removeEmojisTR_nil]
      rfl
    · have h2 : text.isEmpty = false := by simpa [List.isEmpty_iff] using htext
      unfold replace_text
      simp only [h2, hen, Bool.not_true, Bool.false_eq_true, if_false]
      rw [applyFirstRule_no_match h]
      exact joinSep_splitOnChar '\n' (removeEmojisTR cat text)
  · intro cat cfg text gid hlk h
    have hfind : cfg.text_replacements.find?
        (fun r => substrOf (removeEmojisF cat r.1) (removeEmojisF cat text)) = none :=
      List.find?_eq_none.mpr fun x hx => by simp [h x hx]
    unfold apply_text_replacements_preserve_emojis
    rcases hlk with hlk | hlk <;>
      rw [hlk] <;> simp [firstCleanReplace, hfind]

/-- C3 witness: both no-match results evaluated on the concrete input
`hi 🙂` under the baseline (rule-free) configuration. -/
theorem C3_witness :
    replace_text catSo cfgBase "hi 🙂".data = removeEmojisTR catSo "hi 🙂".data ∧
      apply_text_replacements_preserve_emojis catSo cfgBase "hi 🙂".data 5 =
        "hi 🙂".data :=
  ⟨C3_no_match_results.1 catSo cfgBase "hi 🙂".data rfl (by simp [cfgBase]),
    C3_no_match_results.2 catSo cfgBase "hi 🙂".data 5 (Or.inl rfl)
      (by simp [cfgBase])⟩

theorem perTargetAux_attempts (beh : Int → Nat → SendOutcome) (t : Int)
    (maxR : Nat) : ∀ fuel r, ∃ n,
    (perTargetAux beh t maxR fuel r).filterMap attemptTargetOf =
        List.replicate n t ∧ (0 < fuel → 0 < n) := by
  intro fuel
  induction fuel with
  | zero => intro r; exact ⟨0, rfl, by omega⟩
  | succ f ih =>
    intro r
    obtain ⟨n, hn, _⟩ := ih (r + 1)
    cases hbeh : beh t r with
    | success =>
      refine ⟨1, ?_, fun _ => Nat.one_pos⟩
      simp [perTargetAux, hbeh, attemptTargetOf]
    | rateLimit s =>
      refine ⟨n + 1, ?_, fun _ => Nat.succ_pos n⟩
      simp [perTargetAux, hbeh, attemptTargetOf, hn, List.replicate_succ]
    | failed =>
      refine ⟨n + 1, ?_, fun _ => Nat.succ_pos n⟩
      by_cases hc : r + 1 < maxR <;>
        simp [perTargetAux, hbeh, attemptTargetOf, hn, List.replicate_succ, hc]

theorem attemptCount_replicate (beh : Int → Nat → SendOutcome) (maxR : Nat)
    (t : Int) :
    (perTargetTrace beh maxR t).filterMap attemptTargetOf =
      List.replicate (attemptCount beh maxR t) t := by
  obtain ⟨n, hn, _⟩ := perTargetAux_attempts beh t maxR maxR 0
  unfold attemptCount perTargetTrace
  rw [hn, List.length_replicate]

theorem attemptCount_pos (beh : Int → Nat → SendOutcome) (maxR : Nat)
    (t : Int) (h : 0 < maxR) : 0 < attemptCount beh maxR t := by
  obtain ⟨n, hn, hp⟩ := perTargetAux_attempts beh t maxR maxR 0
  unfold attemptCount perTargetTrace
  rw [hn, List.length_replicate]
  exact hp h

/-- C6: with `max_retries = 3`, a target whose send fails with a
non-rate-limit error on the first two attempts and succeeds on the third
gets exactly one successful send and exactly two exponential-backoff
sleeps; and for every behaviour and retry budget, the worker attempts
every target of the configured list, grouped in configured order — one
target exhausting its retries never prevents the rest. -/
theorem C6_retry_and_target_isolation :
    (∀ (beh : Int → Nat → SendOutcome) (t : Int),
        beh t 0 = .failed → beh t 1 = .failed → beh t 2 = .success →
        (perTargetTrace beh 3 t).countP isSentEv = 1 ∧
          (perTargetTrace beh 3 t).countP isBackoffEv = 2) ∧
    (∀ (beh : Int → Nat → SendOutcome) (maxR : Nat) (targets : List Int),
        0 < maxR →
        (forwardMessageTrace beh targets maxR).filterMap attemptTargetOf =
          targets.flatMap (fun t => List.replicate (attemptCount beh maxR t) t) ∧
        ∀ t, 0 < attemptCount beh maxR t) := by
  constructor
  · intro beh t h0 h1 h2
    have htr : perTargetTrace beh 3 t =
        [.attempt t, .backoffSleep 2, .attempt t, .backoffSleep 4,
          .attempt t, .sent t] := by
      unfold perTargetTrace
      norm_num [perTargetAux, h0, h1, h2]
    rw [htr]
    constructor <;> simp [List.countP_cons, isSentEv, isBackoffEv]
  · intro beh maxR targets hm
    constructor
    · induction targets with
      | nil => rfl
      | cons t ts ih =>
        simp only [forwardMessageTrace, List.flatMap_cons, List.filterMap_append]
          at ih ⊢
        rw [attemptCount_replicate, ih]
    · intro t
      exact attemptCount_pos beh maxR t hm

/-- C6 witness: the fail-fail-succeed behaviour at `max_retries = 3` gives
one sent event and two backoff sleeps for target `5`, and target `1` is
attempted at least once. -/
theorem C6_witness :
    (perTargetTrace behTwoFails 3 5).countP isSentEv = 1 ∧
      (perTargetTrace behTwoFails 3 5).countP isBackoffEv = 2 ∧
      0 < attemptCount behTwoFails 3 1 := by
  obtain ⟨h1, h2⟩ := C6_retry_and_target_isolation.1 behTwoFails 5 rfl rfl rfl
  exact ⟨h1, h2,
    (C6_retry_and_target_isolation.2 behTwoFails 3 [1, 2] (by decide)).2 1⟩

/-- C7: an unseen message id arriving while the dedup set holds more than
1000 entries triggers eviction of exactly 500 entries before the insertion
(the size becomes `n - 500 + 1`); and along every ingestion sequence
starting from the empty set, the set never exceeds 1001 identifiers. -/
theorem C7_dedup_eviction_and_bound :
    (∀ (s : List Nat) (mid : Nat), mid ∉ s → 1000 < s.length →
        (dedupStep s mid).length = s.length - 499) ∧
    (∀ ids : List Nat, (List.foldl dedupStep [] ids).length ≤ 1001) := by
  have hstep : ∀ (s : List Nat) (mid : Nat), s.length ≤ 1001 →
      (dedupStep s mid).length ≤ 1001 := by
    intro s mid h
    unfold dedupStep
    by_cases hm : mid ∈ s
    · simpa [hm] using h
    · rw [if_neg hm]
      by_cases hl : 1000 < s.length
      · simp only [hl, if_true, List.length_append, List.length_drop,
          List.length_cons, List.length_nil]
        omega
      · simp only [hl, if_false, List.length_append, List.length_cons,
          List.length_nil]
        omega
  constructor
  · intro s mid hm hl
    unfold dedupStep
    rw [if_neg hm, if_pos hl]
    simp only [List.length_append, List.length_drop, List.length_cons,
      List.length_nil]
    omega
  · intro ids
    have hall : ∀ (js : List Nat) (s : List Nat), s.length ≤ 1001 →
        (List.foldl dedupStep s js).length ≤ 1001 := by
      intro js
      induction js with
      | nil => intro s h; simpa using h
      | cons j js ih => intro s h; exact ih (dedupStep s j) (hstep s j h)
    exact hall ids [] (by simp)

/-- C7 witness: a fresh id hitting a 1001-element set leaves 502 elements
(500 evicted, one inserted), and a short ingestion run stays within the
bound. -/
theorem C7_witness :
    (dedupStep (List.range 1001) 2000).length = 502 ∧
      (List.foldl dedupStep [] [1, 2, 3]).length ≤ 1001 := by
  constructor
  · have h := C7_dedup_eviction_and_bound.1 (List.range 1001) 2000
      (by simp) (by simp)
    norm_num [List.length_range] at h
    exact h
  · exact C7_dedup_eviction_and_bound.2 [1, 2, 3]

/-- C8 counterexample: when the key is already present,
`add_replacement(k, v)` overwrites the stored value and the subsequent
`remove_replacement(k)` deletes the key entirely, so the prior entry is
lost instead of restored. -/
theorem C8_counterexample :
    remove_replacement
        (add_text_replacement [("a".data, "1".data)] "a".data "2".data)
        "a".data = [] ∧
      ([("a".data, "1".data)] : List (Str × Str)) ≠ [] :=
  ⟨rfl, by decide⟩

/-- C8 amended: `add_replacement` followed by `remove_replacement` with
the same key restores the replacement mapping exactly — PROVIDED the key
was not present beforehand (for a pre-existing key the pair deletes the
prior entry). -/
theorem C8_roundtrip_fresh_key (m : List (Str × Str)) (k v : Str)
    (h : ∀ p ∈ m, p.1 ≠ k) :
    remove_replacement (add_text_replacement m k v) k = m := by
  have hany : (m.any fun p => p.1 == k) = false := by
    rw [List.any_eq_false]
    intro p hp
    simpa using h p hp
  have hf1 : (m.filter fun p => p.1 != k) = m :=
    List.filter_eq_self.mpr fun p hp => by simpa using h p hp
  unfold add_text_replacement
  rw [hany]
  simp only [Bool.false_eq_true, if_false]
  unfold remove_replacement
  have hany2 : ((m ++ [(k, v)]).any fun p => p.1 == k) = true := by
    simp [List.any_append]
  rw [hany2, if_pos rfl, List.filter_append, hf1]
  simp

/-- C8 witness: adding and removing the fresh key `a` over the mapping
holding only `b` restores the mapping. -/
theorem C8_witness :
    remove_replacement
        (add_text_replacement [("b".data, "1".data)] "a".data "2".data)
        "a".data = [("b".data, "1".data)] :=
  C8_roundtrip_fresh_key [("b".data, "1".data)] "a".data "2".data (by decide)

/-- C9: `process_message` never propagates an exception: whatever the
fallible extraction and replacement sub-steps do, the wrapped call returns
normally, and when the body raises it returns `None` (the message is
dropped). -/
theorem C9_exceptions_caught (extractO : PyMessage → Except PyExc Str)
    (replO : Str → Int → Except PyExc Str) (cfg : Config) (msg : PyMessage)
    (gid : Int) :
    (∃ v, process_message_sem extractO replO cfg msg gid = .ok v) ∧
      (∀ e, process_message_body extractO replO cfg msg gid = .error e →
        process_message_sem extractO replO cfg msg gid = .ok none) := by
  cases hb : process_message_body extractO replO cfg msg gid with
  | ok v =>
    constructor
    · exact ⟨v, by simp [process_message_sem, hb]⟩
    · intro e he
      exact Except.noConfusion he
  | error e =>
    constructor
    · exact ⟨none, by simp [process_message_sem, hb]⟩
    · intro e2 _
      simp [process_message_sem, hb]

/-- C9 witness: with an extraction step that raises, the wrapped call
returns `None` normally. -/
theorem C9_witness :
    process_message_sem extractBoom replOk cfgBase msgHello 5 = .ok none :=
  (C9_exceptions_caught extractBoom replOk cfgBase msgHello 5).2 "boom" rfl

/-- C10: `TextReplacer._remove_emojis` is idempotent for every category
oracle and input, and it preserves the number of newline-separated lines. -/
theorem C10_remove_emojis_idem_lines (cat : Char → Str) (text : Str) :
    removeEmojisTR cat (removeEmojisTR cat text) = removeEmojisTR cat text ∧
      (splitOnChar '\n' (removeEmojisTR cat text)).length =
        (splitOnChar '\n' text).length := by
  refine ⟨removeEmojisTR_idem cat text, ?_⟩
  rw [splitOnChar_removeEmojisTR, List.length_map]
